import Mathlib

/-!
# Verification of the `bpl` memory subsystem

A shallow embedding of the memory subsystem of the `bpl` C++ library
(`include/bpl/array.hpp`, the arena allocator, and the memory/bit helpers),
together with theorems settling the specification claims about it.

Machine addresses and sizes are modelled as `Nat`.  The source computes
addresses with `uintptr_t`/`size_t`; every place where its own contract
(`align_forward`'s documented and debug-asserted precondition that
`x + (alignment - 1)` does not overflow) rules out wrap-around is modelled
with plain natural-number arithmetic.
-/

namespace Bpl

/-! ## Bit helpers (`include/bpl/bit.hpp`) -/

/-- `bpl::align_backward(x, alignment)`: the source computes
`x & ~(alignment - 1)`, which for a power-of-two `alignment` (the documented
and debug-asserted precondition) clears the low bits of `x`, i.e. rounds `x`
down to a multiple of `alignment`.  On `Nat` that is `x - x % alignment`;
the bridging lemma `alignBackward_eq_shiftr_shiftl` below relates this to the
bit-level reading. -/
def alignBackward (x alignment : Nat) : Nat :=
  x - x % alignment

/-- `bpl::align_forward(x, alignment)`: `align_backward(x + (alignment - 1),
alignment)`.  Precondition (debug-asserted in the source): `alignment` is a
power of two and `x + (alignment - 1)` does not overflow. -/
def alignForward (x alignment : Nat) : Nat :=
  alignBackward (x + (alignment - 1)) alignment

/-- For a power-of-two alignment `2 ^ k`, `alignBackward` is exactly the mask
`x & ~(2 ^ k - 1)` of the source, i.e. clearing the `k` low bits of `x`. -/
theorem alignBackward_eq_shiftr_shiftl (x k : Nat) :
    alignBackward x (2 ^ k) = (x >>> k) <<< k := by
  rw [Nat.shiftLeft_eq, Nat.shiftRight_eq_div_pow, alignBackward,
    Nat.mul_comm (x / 2 ^ k) (2 ^ k)]
  have := Nat.div_add_mod x (2 ^ k)
  omega

theorem alignBackward_le (x a : Nat) : alignBackward x a ≤ x :=
  Nat.sub_le _ _

theorem alignBackward_dvd (x a : Nat) : a ∣ alignBackward x a := by
  rcases Nat.eq_zero_or_pos a with h | h
  · subst h
    simp [alignBackward]
  · exact (Nat.dvd_sub_mod x)

theorem le_alignForward (x a : Nat) (ha : 0 < a) : x ≤ alignForward x a := by
  unfold alignForward alignBackward
  have h1 : (x + (a - 1)) % a ≤ a - 1 := by
    have := Nat.mod_lt (x + (a - 1)) ha
    omega
  omega

theorem alignForward_dvd (x a : Nat) : a ∣ alignForward x a :=
  alignBackward_dvd _ _

theorem alignForward_eq_self (x a : Nat) (ha : 0 < a) (h : a ∣ x) :
    alignForward x a = x := by
  unfold alignForward alignBackward
  rcases h with ⟨c, rfl⟩
  have h2 : (a * c + (a - 1)) % a = (a - 1) % a := Nat.mul_add_mod a c (a - 1)
  have h3 : (a - 1) % a = a - 1 := Nat.mod_eq_of_lt (by omega)
  omega

/-! ## Memory blocks (`bpl::MemoryBlock`) and the arena allocator (`bpl::Arena`)

Addresses are modelled as natural numbers.  An `Arena` value holds the
reserved block `m_block = { base, cap }` and the bump cursor `m_end`
(named `endp` here). -/

/-- `bpl::MemoryBlock { void* ptr; size_t size; }`.  A default-initialized
block `{}` is `⟨0, 0⟩` (null pointer, zero size). -/
structure MemoryBlock where
  ptr : Nat
  size : Nat
deriving DecidableEq, Repr

/-- The value-initialized block `MemoryBlock{}` returned on failure paths. -/
def MemoryBlock.empty : MemoryBlock := ⟨0, 0⟩

/-- `bpl::Arena`: `m_block = { base (= m_block.ptr), cap (= m_block.size) }`
and the cursor `m_end` (`endp`). -/
structure Arena where
  base : Nat
  cap : Nat
  endp : Nat
deriving DecidableEq, Repr

namespace Arena

/-- `Arena::push(size, alignment)`: align the cursor forward, align the end of
the requested span forward, fail with an empty block if that end lies past
`base + cap`, otherwise advance the cursor and hand out the block. -/
def push (ar : Arena) (size alignment : Nat) : MemoryBlock × Arena :=
  let addrBegin := alignForward ar.endp alignment
  let addrEnd := alignForward (addrBegin + size) alignment
  if ar.base + ar.cap < addrEnd then
    (MemoryBlock.empty, ar)
  else
    (⟨addrBegin, addrEnd - addrBegin⟩, { ar with endp := addrEnd })

/-- `Arena::pop(block, alignment)`: succeeds iff the end of `block` equals the
cursor aligned forward; on success rewinds the cursor to `block.ptr`. -/
def pop (ar : Arena) (block : MemoryBlock) (alignment : Nat) : Bool × Arena :=
  let blockEnd := block.ptr + block.size
  let arenaEndAligned := alignForward ar.endp alignment
  if blockEnd = arenaEndAligned then
    (true, { ar with endp := block.ptr })
  else
    (false, ar)

/-- `Arena::clear()`: reset the cursor to the base of the reserved block. -/
def clear (ar : Arena) : Arena := { ar with endp := ar.base }

/-- `Arena::try_grow(block, alignment, additional)`: if the end of `block` is
not the cursor, return an empty block; otherwise push `additional` more bytes
and return `{ block.ptr, block.size + new_block.size }`. -/
def tryGrow (ar : Arena) (block : MemoryBlock) (alignment additional : Nat) :
    MemoryBlock × Arena :=
  if block.ptr + block.size ≠ ar.endp then
    (MemoryBlock.empty, ar)
  else
    let r := ar.push additional alignment
    (⟨block.ptr, block.size + r.1.size⟩, r.2)

/-- `Arena::try_shrink(block, alignment, new_size)`: if `new_size > block.size`
return `false`; otherwise pop the trailing block
`{ block.ptr + new_size, block.size - new_size }`. -/
def tryShrink (ar : Arena) (block : MemoryBlock) (alignment newSize : Nat) :
    Bool × Arena :=
  if block.size < newSize then
    (false, ar)
  else
    ar.pop ⟨block.ptr + newSize, block.size - newSize⟩ alignment

/-- Folding `Arena::push` over a list of sizes with one fixed alignment,
collecting the returned blocks. -/
def pushSeq (ar : Arena) (a : Nat) : List Nat → List MemoryBlock × Arena
  | [] => ([], ar)
  | s :: rest =>
    let r := ar.push s a
    let q := pushSeq r.2 a rest
    (r.1 :: q.1, q.2)

/-- Folding `Arena::pop` over a list of blocks with one fixed alignment,
collecting the returned booleans. -/
def popSeq (ar : Arena) (a : Nat) : List MemoryBlock → List Bool × Arena
  | [] => ([], ar)
  | b :: rest =>
    let r := ar.pop b a
    let q := popSeq r.2 a rest
    (r.1 :: q.1, q.2)

/-- The shape of a successful run of `push` calls with fixed alignment `a` and
no interleaved pops: starting from `ar`, each issued block is non-empty,
begins at the forward-aligned cursor, ends on an aligned address inside the
reserved region, and the cursor moves to its end; `arF` is the final state. -/
inductive PushChain (a : Nat) : Arena → List MemoryBlock → Arena → Prop
  | nil (ar : Arena) : PushChain a ar [] ar
  | cons (ar : Arena) (b : MemoryBlock) (bs : List MemoryBlock) (arF : Arena)
      (hptr : b.ptr = alignForward ar.endp a)
      (hsz : 0 < b.size)
      (hdvd : a ∣ b.ptr + b.size)
      (hcap : b.ptr + b.size ≤ ar.base + ar.cap)
      (rest : PushChain a { ar with endp := b.ptr + b.size } bs arF) :
      PushChain a ar (b :: bs) arF

theorem pushSeq_length (ar : Arena) (a : Nat) (sizes : List Nat) :
    (Arena.pushSeq ar a sizes).1.length = sizes.length := by
  induction sizes generalizing ar with
  | nil => rfl
  | cons s rest ih => simp [Arena.pushSeq, ih]

theorem pushSeq_append (ar : Arena) (a : Nat) (l1 l2 : List Nat) :
    Arena.pushSeq ar a (l1 ++ l2) =
      ((Arena.pushSeq ar a l1).1 ++
        (Arena.pushSeq (Arena.pushSeq ar a l1).2 a l2).1,
       (Arena.pushSeq (Arena.pushSeq ar a l1).2 a l2).2) := by
  induction l1 generalizing ar with
  | nil => rfl
  | cons s rest ih => simp [Arena.pushSeq, ih]

theorem popSeq_append (ar : Arena) (a : Nat) (l1 l2 : List MemoryBlock) :
    Arena.popSeq ar a (l1 ++ l2) =
      ((Arena.popSeq ar a l1).1 ++
        (Arena.popSeq (Arena.popSeq ar a l1).2 a l2).1,
       (Arena.popSeq (Arena.popSeq ar a l1).2 a l2).2) := by
  induction l1 generalizing ar with
  | nil => rfl
  | cons b rest ih => simp [Arena.popSeq, ih]

/-- A run of `push` calls all of whose returned blocks are non-empty is a
`PushChain`: a failed `push` returns the empty block. -/
theorem pushChain_of_pushSeq (a : Nat) (sizes : List Nat) (ar : Arena)
    (h : ∀ b ∈ (Arena.pushSeq ar a sizes).1, 0 < b.size) :
    PushChain a ar (Arena.pushSeq ar a sizes).1 (Arena.pushSeq ar a sizes).2 := by
  induction sizes generalizing ar with
  | nil => exact PushChain.nil ar
  | cons s rest ih =>
    have hmem : (ar.push s a).1 ∈ (Arena.pushSeq ar a (s :: rest)).1 := by
      simp [Arena.pushSeq]
    have hsz : 0 < (ar.push s a).1.size := h _ hmem
    by_cases hc : ar.base + ar.cap < alignForward (alignForward ar.endp a + s) a
    · exfalso
      have : (ar.push s a).1 = MemoryBlock.empty := by
        simp [Arena.push, hc]
      rw [this] at hsz
      exact Nat.lt_irrefl 0 hsz
    · have hpush : ar.push s a =
          (⟨alignForward ar.endp a,
            alignForward (alignForward ar.endp a + s) a - alignForward ar.endp a⟩,
           { ar with endp := alignForward (alignForward ar.endp a + s) a }) := by
        simp [Arena.push, hc]
      have hlt : alignForward ar.endp a < alignForward (alignForward ar.endp a + s) a := by
        have := hsz
        rw [hpush] at this
        simp only at this
        omega
      have hsum : alignForward ar.endp a +
          (alignForward (alignForward ar.endp a + s) a - alignForward ar.endp a) =
          alignForward (alignForward ar.endp a + s) a := by omega
      simp only [Arena.pushSeq, hpush]
      refine PushChain.cons _ _ _ _ rfl ?_ ?_ ?_ ?_
      · rw [hpush] at hsz
        exact hsz
      · simp only [hsum]
        exact alignForward_dvd _ _
      · simp only [hsum]
        omega
      · simp only [hsum]
        have := ih { ar with endp := alignForward (alignForward ar.endp a + s) a }
          (by
            intro b hb
            refine h b ?_
            simp [Arena.pushSeq, hpush]
            right
            exact hb)
        exact this

theorem PushChain.base_eq {a : Nat} {ar : Arena} {bs : List MemoryBlock}
    {arF : Arena} (h : PushChain a ar bs arF) :
    arF.base = ar.base ∧ arF.cap = ar.cap := by
  induction h with
  | nil => exact ⟨rfl, rfl⟩
  | cons ar b bs arF hptr hsz hdvd hcap rest ih => exact ih

theorem PushChain.pos_align {a : Nat} {ar : Arena} {b : MemoryBlock}
    {bs : List MemoryBlock} {arF : Arena} (h : PushChain a ar (b :: bs) arF) :
    0 < a := by
  cases h with
  | cons _ _ _ _ hptr hsz hdvd hcap rest =>
    rcases Nat.eq_zero_or_pos a with h0 | h0
    · subst h0
      have := Nat.eq_zero_of_zero_dvd hdvd
      omega
    · exact h0

theorem PushChain.endp_le {a : Nat} {ar : Arena} {bs : List MemoryBlock}
    {arF : Arena} (h : PushChain a ar bs arF) : ar.endp ≤ arF.endp := by
  induction h with
  | nil => exact Nat.le_refl _
  | cons ar b bs arF hptr hsz hdvd hcap rest ih =>
    have ha : 0 < a := (PushChain.cons ar b bs arF hptr hsz hdvd hcap rest).pos_align
    have h1 : ar.endp ≤ b.ptr := hptr ▸ le_alignForward ar.endp a ha
    have h2 : b.ptr ≤ b.ptr + b.size := Nat.le_add_right _ _
    exact Nat.le_trans (Nat.le_trans h1 h2) ih

theorem PushChain.endp_dvd {a : Nat} {ar : Arena} {bs : List MemoryBlock}
    {arF : Arena} (h : PushChain a ar bs arF) (hne : bs ≠ []) :
    a ∣ arF.endp := by
  induction h with
  | nil => exact absurd rfl hne
  | cons ar b bs arF hptr hsz hdvd hcap rest ih =>
    cases bs with
    | nil =>
      cases rest
      exact hdvd
    | cons b' bs' => exact ih (by simp)

/-- While later blocks of a chain are live, the end of an earlier block lies
strictly below the cursor. -/
theorem PushChain.head_end_lt {a : Nat} {ar : Arena} {b : MemoryBlock}
    {bs : List MemoryBlock} {arF : Arena} (h : PushChain a ar (b :: bs) arF)
    (hne : bs ≠ []) : b.ptr + b.size < arF.endp := by
  cases h with
  | cons _ _ _ _ hptr hsz hdvd hcap rest =>
    cases bs with
    | nil => exact absurd rfl hne
    | cons b' bs' =>
      cases rest with
      | cons _ _ _ _ hptr' hsz' hdvd' hcap' rest' =>
        have ha : 0 < a := by
          rcases Nat.eq_zero_or_pos a with h0 | h0
          · have := Nat.eq_zero_of_zero_dvd (h0 ▸ hdvd')
            omega
          · exact h0
        have h1 : b.ptr + b.size ≤ b'.ptr := hptr' ▸ le_alignForward _ a ha
        have h2 : b'.ptr + b'.size ≤ arF.endp := rest'.endp_le
        omega

/-- Popping any block of a chain other than the last fails and leaves the
arena unchanged. -/
theorem PushChain.pop_mid_fails {a : Nat} {ar : Arena} {bs : List MemoryBlock}
    {arF : Arena} (h : PushChain a ar bs arF) :
    ∀ i, i + 1 < bs.length →
      arF.pop (bs.getD i MemoryBlock.empty) a = (false, arF) := by
  induction h with
  | nil =>
    intro i hi
    simp at hi
  | cons ar b bs arF hptr hsz hdvd hcap rest ih =>
    intro i hi
    have hbs : bs ≠ [] := by
      cases bs with
      | nil => simp at hi
      | cons _ _ => simp
    have ha : 0 < a := (PushChain.cons ar b bs arF hptr hsz hdvd hcap rest).pos_align
    have halign : alignForward arF.endp a = arF.endp :=
      alignForward_eq_self _ _ ha
        ((PushChain.cons ar b bs arF hptr hsz hdvd hcap rest).endp_dvd (by simp))
    cases i with
    | zero =>
      have hlt : b.ptr + b.size < arF.endp :=
        (PushChain.cons ar b bs arF hptr hsz hdvd hcap rest).head_end_lt hbs
      simp only [List.getD_cons_zero]
      unfold Arena.pop
      simp only [halign]
      rw [if_neg (by omega)]
    | succ j =>
      have : (b :: bs).getD (j + 1) MemoryBlock.empty = bs.getD j MemoryBlock.empty := by
        simp [List.getD]
      rw [this]
      exact ih j (by simpa using hi)

/-- A chain splits at any point into a prefix chain and a suffix chain. -/
theorem PushChain.split {a : Nat} {ar : Arena} {bs : List MemoryBlock}
    {arF : Arena} (h : PushChain a ar bs arF) (k : Nat) :
    ∃ mid, PushChain a ar (bs.take k) mid ∧ PushChain a mid (bs.drop k) arF := by
  induction h generalizing k with
  | nil =>
    exact ⟨_, by simpa using PushChain.nil _, by simpa using PushChain.nil _⟩
  | cons ar b bs arF hptr hsz hdvd hcap rest ih =>
    cases k with
    | zero =>
      exact ⟨ar, PushChain.nil ar,
        PushChain.cons ar b bs arF hptr hsz hdvd hcap rest⟩
    | succ k' =>
      obtain ⟨mid, h1, h2⟩ := ih k'
      exact ⟨mid, PushChain.cons ar b (bs.take k') mid hptr hsz hdvd hcap h1, h2⟩

/-- Popping the blocks of a chain in reverse order succeeds at every step and
finally rewinds the cursor to the first block's pointer. -/
theorem PushChain.popAll {a : Nat} {ar : Arena} {bs : List MemoryBlock}
    {arF : Arena} (h : PushChain a ar bs arF) :
    Arena.popSeq arF a bs.reverse =
      (List.replicate bs.length true,
       if bs.isEmpty then arF
       else { arF with endp := (bs.headD MemoryBlock.empty).ptr }) := by
  induction h with
  | nil => rfl
  | cons ar b bs arF hptr hsz hdvd hcap rest ih =>
    have ha : 0 < a := (PushChain.cons ar b bs arF hptr hsz hdvd hcap rest).pos_align
    have hrev : (b :: bs).reverse = bs.reverse ++ [b] := by simp
    rw [hrev, Arena.popSeq_append, ih]
    -- the cursor seen by the final pop equals `b.ptr + b.size` in both cases
    have hcursor :
        (if bs.isEmpty then arF
         else { arF with endp := (bs.headD MemoryBlock.empty).ptr }).endp =
          b.ptr + b.size := by
      cases bs with
      | nil =>
        cases rest
        simp
      | cons b' bs' =>
        cases rest with
        | cons _ _ _ _ hptr' hsz' hdvd' hcap' rest' =>
          simp only [List.isEmpty_cons, List.headD_cons]
          rw [if_neg (by simp)]
          simp only [hptr']
          exact alignForward_eq_self _ _ ha hdvd
    have hbase :
        (if bs.isEmpty then arF
         else { arF with endp := (bs.headD MemoryBlock.empty).ptr }).base = arF.base := by
      split <;> rfl
    have hcap2 :
        (if bs.isEmpty then arF
         else { arF with endp := (bs.headD MemoryBlock.empty).ptr }).cap = arF.cap := by
      split <;> rfl
    have hpop :
        (if bs.isEmpty then arF
         else { arF with endp := (bs.headD MemoryBlock.empty).ptr }).pop b a =
          (true, { arF with endp := b.ptr }) := by
      unfold Arena.pop
      rw [hcursor, alignForward_eq_self _ _ ha hdvd, if_pos rfl]
      cases bs with
      | nil =>
        cases rest
        simp
      | cons b' bs' =>
        congr 1
    simp only [Arena.popSeq, hpop]
    simp [List.replicate_succ']

end Arena

/-- C5: for every `Arena` state with cursor `endp` and every
`push(size, alignment)` with power-of-two alignment, letting
`begin = align_forward(endp, alignment)` and
`new_end = align_forward(begin + size, alignment)`: if
`new_end > base + capacity` the call returns an empty block and the arena is
unchanged; otherwise the cursor becomes `new_end` and the returned block is
`{begin, new_end - begin}`; in particular a successful push hands out memory
only inside the reserved region `[base, base + capacity]`. -/
theorem arena_push_spec (ar : Arena) (size a : Nat)
    (ha : ∃ k, a = 2 ^ k) (hb : ar.base ≤ ar.endp) :
    (ar.base + ar.cap < alignForward (alignForward ar.endp a + size) a →
      ar.push size a = (MemoryBlock.empty, ar)) ∧
    (alignForward (alignForward ar.endp a + size) a ≤ ar.base + ar.cap →
      ar.push size a =
        (⟨alignForward ar.endp a,
          alignForward (alignForward ar.endp a + size) a - alignForward ar.endp a⟩,
         { ar with endp := alignForward (alignForward ar.endp a + size) a }) ∧
      ar.base ≤ alignForward ar.endp a ∧
      alignForward ar.endp a +
          (alignForward (alignForward ar.endp a + size) a - alignForward ar.endp a) ≤
        ar.base + ar.cap) := by
  obtain ⟨k, rfl⟩ := ha
  have hpos : 0 < 2 ^ k := Nat.pos_pow_of_pos k (by omega)
  constructor
  · intro h
    simp [Arena.push, h]
  · intro h
    have h1 : ar.endp ≤ alignForward ar.endp (2 ^ k) := le_alignForward _ _ hpos
    have h2 : alignForward ar.endp (2 ^ k) + size ≤
        alignForward (alignForward ar.endp (2 ^ k) + size) (2 ^ k) :=
      le_alignForward _ _ hpos
    refine ⟨?_, by omega, by omega⟩
    simp [Arena.push, Nat.not_lt.mpr h]

/-- Witness for `arena_push_spec` at the concrete arena
`{base := 4096, cap := 64, endp := 4096}` with `push(16, 4)`. -/
theorem arena_push_spec_witness :
    ((∃ k, (4 : Nat) = 2 ^ k) ∧ (4096 : Nat) ≤ 4096) ∧
    (((4096 : Nat) + 64 < alignForward (alignForward 4096 4 + 16) 4 →
      (Arena.mk 4096 64 4096).push 16 4 = (MemoryBlock.empty, Arena.mk 4096 64 4096)) ∧
    (alignForward (alignForward 4096 4 + 16) 4 ≤ (4096 : Nat) + 64 →
      (Arena.mk 4096 64 4096).push 16 4 =
        (⟨alignForward 4096 4,
          alignForward (alignForward 4096 4 + 16) 4 - alignForward 4096 4⟩,
         { Arena.mk 4096 64 4096 with
            endp := alignForward (alignForward 4096 4 + 16) 4 }) ∧
      (4096 : Nat) ≤ alignForward 4096 4 ∧
      alignForward 4096 4 +
          (alignForward (alignForward 4096 4 + 16) 4 - alignForward 4096 4) ≤
        (4096 : Nat) + 64)) :=
  ⟨⟨⟨2, rfl⟩, by decide⟩,
    arena_push_spec (Arena.mk 4096 64 4096) 16 4 ⟨2, rfl⟩ (by decide)⟩

/-- C6: LIFO discipline.  For a sequence of `push` calls with one fixed
power-of-two alignment producing non-empty blocks `b1, …, bn` and no
interleaved pops: (i) popping the last `j` blocks in strict reverse order
succeeds at every step, (ii) doing so rewinds the cursor exactly to the
pointer of the last block popped, and (iii) popping any `bi` while at least
one later block `bj`, `j > i`, is still live (that is, in any state reached
by pushing the first `m` sizes with `i + 1 < m`, which by (ii) also covers
every intermediate state of the reverse popping) returns `false` and leaves
the cursor unchanged. -/
theorem arena_lifo_discipline (a : Nat) (_ha : ∃ k, a = 2 ^ k)
    (ar0 : Arena) (sizes : List Nat)
    (hne : ∀ b ∈ (Arena.pushSeq ar0 a sizes).1, 0 < b.size) :
    (∀ j, j ≤ sizes.length →
      (Arena.popSeq (Arena.pushSeq ar0 a sizes).2 a
          (((Arena.pushSeq ar0 a sizes).1.drop (sizes.length - j)).reverse)).1 =
        List.replicate j true) ∧
    (∀ j, 0 < j → j ≤ sizes.length →
      (Arena.popSeq (Arena.pushSeq ar0 a sizes).2 a
          (((Arena.pushSeq ar0 a sizes).1.drop (sizes.length - j)).reverse)).2 =
        { (Arena.pushSeq ar0 a sizes).2 with
            endp := ((Arena.pushSeq ar0 a sizes).1.getD (sizes.length - j)
              MemoryBlock.empty).ptr }) ∧
    (∀ i m, i + 1 < m → m ≤ sizes.length →
      (Arena.pushSeq ar0 a (sizes.take m)).2.pop
          ((Arena.pushSeq ar0 a sizes).1.getD i MemoryBlock.empty) a =
        (false, (Arena.pushSeq ar0 a (sizes.take m)).2)) := by
  have hchain := Arena.pushChain_of_pushSeq a sizes ar0 hne
  have hlen : (Arena.pushSeq ar0 a sizes).1.length = sizes.length :=
    Arena.pushSeq_length ar0 a sizes
  refine ⟨?_, ?_, ?_⟩
  · intro j hj
    obtain ⟨mid, h1, h2⟩ := hchain.split (sizes.length - j)
    have hlen2 : ((Arena.pushSeq ar0 a sizes).1.drop (sizes.length - j)).length = j := by
      rw [List.length_drop, hlen]
      omega
    rw [h2.popAll]
    simp only [hlen2]
  · intro j hj0 hj
    obtain ⟨mid, h1, h2⟩ := hchain.split (sizes.length - j)
    have hlen2 : ((Arena.pushSeq ar0 a sizes).1.drop (sizes.length - j)).length = j := by
      rw [List.length_drop, hlen]
      omega
    have hne2 : (Arena.pushSeq ar0 a sizes).1.drop (sizes.length - j) ≠ [] := by
      intro hc
      rw [hc] at hlen2
      simp at hlen2
      omega
    rw [h2.popAll]
    rw [if_neg (by simp [List.isEmpty_eq_true, hne2])]
    rw [List.headD_eq_head?, List.head?_drop, ← List.getD_eq_getElem?_getD]
  · intro i m him hm
    have hsplit : sizes = sizes.take m ++ sizes.drop m := (List.take_append_drop m sizes).symm
    have happ := Arena.pushSeq_append ar0 a (sizes.take m) (sizes.drop m)
    have hblocks : (Arena.pushSeq ar0 a sizes).1 =
        (Arena.pushSeq ar0 a (sizes.take m)).1 ++
          (Arena.pushSeq (Arena.pushSeq ar0 a (sizes.take m)).2 a (sizes.drop m)).1 := by
      conv_lhs => rw [hsplit]
      rw [happ]
    have hplen : (Arena.pushSeq ar0 a (sizes.take m)).1.length = m := by
      rw [Arena.pushSeq_length, List.length_take, Nat.min_eq_left hm]
    have hpchain := Arena.pushChain_of_pushSeq a (sizes.take m) ar0
      (by
        intro b hb
        refine hne b ?_
        rw [hblocks]
        exact List.mem_append_left _ hb)
    have hgetD : (Arena.pushSeq ar0 a sizes).1.getD i MemoryBlock.empty =
        (Arena.pushSeq ar0 a (sizes.take m)).1.getD i MemoryBlock.empty := by
      rw [hblocks, List.getD_eq_getElem?_getD, List.getD_eq_getElem?_getD,
        List.getElem?_append, if_pos (by omega)]
    rw [hgetD]
    exact hpchain.pop_mid_fails i (by omega)

/-- Witness for `arena_lifo_discipline` on the concrete arena
`{base := 4096, cap := 64, endp := 4096}` with two pushes of 16 bytes at
alignment 4 (the spec's own concrete scenario, §8(a)). -/
theorem arena_lifo_discipline_witness :
    ((∃ k, (4 : Nat) = 2 ^ k) ∧
      (∀ b ∈ (Arena.pushSeq (Arena.mk 4096 64 4096) 4 [16, 16]).1, 0 < b.size)) ∧
    ((∀ j, j ≤ ([16, 16] : List Nat).length →
      (Arena.popSeq (Arena.pushSeq (Arena.mk 4096 64 4096) 4 [16, 16]).2 4
          (((Arena.pushSeq (Arena.mk 4096 64 4096) 4 [16, 16]).1.drop
            (([16, 16] : List Nat).length - j)).reverse)).1 =
        List.replicate j true) ∧
    (∀ j, 0 < j → j ≤ ([16, 16] : List Nat).length →
      (Arena.popSeq (Arena.pushSeq (Arena.mk 4096 64 4096) 4 [16, 16]).2 4
          (((Arena.pushSeq (Arena.mk 4096 64 4096) 4 [16, 16]).1.drop
            (([16, 16] : List Nat).length - j)).reverse)).2 =
        { (Arena.pushSeq (Arena.mk 4096 64 4096) 4 [16, 16]).2 with
            endp := ((Arena.pushSeq (Arena.mk 4096 64 4096) 4 [16, 16]).1.getD
              (([16, 16] : List Nat).length - j) MemoryBlock.empty).ptr }) ∧
    (∀ i m, i + 1 < m → m ≤ ([16, 16] : List Nat).length →
      (Arena.pushSeq (Arena.mk 4096 64 4096) 4 (([16, 16] : List Nat).take m)).2.pop
          ((Arena.pushSeq (Arena.mk 4096 64 4096) 4 [16, 16]).1.getD i
            MemoryBlock.empty) 4 =
        (false, (Arena.pushSeq (Arena.mk 4096 64 4096) 4 (([16, 16] : List Nat).take m)).2))) :=
  ⟨⟨⟨2, rfl⟩, by decide⟩,
    arena_lifo_discipline 4 ⟨2, rfl⟩ (Arena.mk 4096 64 4096) [16, 16] (by decide)⟩

/-- C8 counterexample: `try_grow` on the block at the top of the stack when
the arena lacks room for the additional bytes does NOT return an empty block:
the inner `push` fails with a zero-sized block and the function returns
`{ block.ptr, block.size + 0 }`, i.e. the original non-empty block.  Concrete
input: arena `{base 4096, cap 16, end 4112}` (full), top block
`{4096, 16}`, `try_grow(block, 1, 8)`. -/
theorem arena_tryGrow_full_returns_original :
    (Arena.mk 4096 16 4112).tryGrow ⟨4096, 16⟩ 1 8 =
      (⟨4096, 16⟩, Arena.mk 4096 16 4112) ∧
    (⟨4096, 16⟩ : MemoryBlock).size ≠ 0 := by
  decide

/-- C8 (amended): `try_grow(block, alignment, additional)` returns an empty
block and leaves the arena unchanged when `block` is not the top of the
stack; when `block` is top-of-stack and the arena has room it returns the
combined block with the cursor advanced; when `block` is top-of-stack but
the arena lacks room it returns the original block `{block.ptr, block.size}`
(not an empty block) with the arena unchanged; it never aborts. -/
theorem arena_tryGrow_spec (ar : Arena) (block : MemoryBlock)
    (a additional : Nat) :
    (block.ptr + block.size ≠ ar.endp →
      ar.tryGrow block a additional = (MemoryBlock.empty, ar)) ∧
    (block.ptr + block.size = ar.endp →
      (ar.base + ar.cap < alignForward (alignForward ar.endp a + additional) a →
        ar.tryGrow block a additional = (⟨block.ptr, block.size⟩, ar)) ∧
      (alignForward (alignForward ar.endp a + additional) a ≤ ar.base + ar.cap →
        ar.tryGrow block a additional =
          (⟨block.ptr, block.size +
              (alignForward (alignForward ar.endp a + additional) a -
                alignForward ar.endp a)⟩,
           { ar with endp := alignForward (alignForward ar.endp a + additional) a }))) := by
  refine ⟨fun h => by simp [Arena.tryGrow, h], fun h => ⟨fun hfull => ?_, fun hroom => ?_⟩⟩
  · simp [Arena.tryGrow, h, Arena.push, hfull, MemoryBlock.empty]
  · simp [Arena.tryGrow, h, Arena.push, Nat.not_lt.mpr hroom]

/-- Witness for `arena_tryGrow_spec`: growing the top block `{4096, 16}` of
the arena `{base 4096, cap 64, end 4112}` by 8 bytes at alignment 4. -/
theorem arena_tryGrow_spec_witness :
    (4096 : Nat) + 16 = 4112 ∧
    alignForward (alignForward 4112 4 + 8) 4 ≤ (4096 : Nat) + 64 ∧
    (Arena.mk 4096 64 4112).tryGrow ⟨4096, 16⟩ 4 8 =
      (⟨4096, 16 + (alignForward (alignForward 4112 4 + 8) 4 - alignForward 4112 4)⟩,
       { Arena.mk 4096 64 4112 with endp := alignForward (alignForward 4112 4 + 8) 4 }) :=
  ⟨by decide, by decide,
    ((arena_tryGrow_spec (Arena.mk 4096 64 4112) ⟨4096, 16⟩ 4 8).2 (by decide)).2
      (by decide)⟩

/-- C9 counterexample: violating `new_size <= block.size` is handled by the
code as an ordinary runtime failure mode, not as an unchecked precondition:
`try_shrink` explicitly tests `new_size > block.size` and returns `false`
with the arena unchanged (there is no assertion on this path).  Concrete
input: arena `{base 4096, cap 64, end 4112}`, block `{4096, 8}`,
`try_shrink(block, 4, 16)` with `16 > 8`. -/
theorem arena_tryShrink_oversize_runtime_false :
    (Arena.mk 4096 64 4112).tryShrink ⟨4096, 8⟩ 4 16 =
      (false, Arena.mk 4096 64 4112) ∧
    (8 : Nat) < 16 := by
  decide

/-- C9 (amended): for `new_size <= block.size`, `try_shrink(block, alignment,
new_size)` behaves exactly like popping the trailing
`block.size - new_size` bytes of `block`: it returns `true` and rewinds the
cursor to `block.ptr + new_size` when that trailing region is top-of-stack,
and otherwise returns `false` leaving the arena unchanged; for
`new_size > block.size` the call is checked at runtime and returns `false`
with the arena unchanged, rather than that case being an unchecked
precondition. -/
theorem arena_tryShrink_spec (ar : Arena) (block : MemoryBlock)
    (a newSize : Nat) :
    (newSize ≤ block.size →
      ar.tryShrink block a newSize =
        ar.pop ⟨block.ptr + newSize, block.size - newSize⟩ a ∧
      (block.ptr + block.size = alignForward ar.endp a →
        ar.tryShrink block a newSize =
          (true, { ar with endp := block.ptr + newSize })) ∧
      (block.ptr + block.size ≠ alignForward ar.endp a →
        ar.tryShrink block a newSize = (false, ar))) ∧
    (block.size < newSize →
      ar.tryShrink block a newSize = (false, ar)) := by
  constructor
  · intro hle
    have hsum : block.ptr + newSize + (block.size - newSize) =
        block.ptr + block.size := by omega
    refine ⟨by simp [Arena.tryShrink, Nat.not_lt.mpr hle], fun htop => ?_, fun hnot => ?_⟩
    · simp [Arena.tryShrink, Nat.not_lt.mpr hle, Arena.pop, hsum, htop]
    · simp [Arena.tryShrink, Nat.not_lt.mpr hle, Arena.pop, hsum, hnot]
  · intro hgt
    simp [Arena.tryShrink, hgt]

/-- Witness for `arena_tryShrink_spec`: shrinking the top block `{4096, 16}`
of the arena `{base 4096, cap 64, end 4112}` to 8 bytes at alignment 4. -/
theorem arena_tryShrink_spec_witness :
    (8 : Nat) ≤ 16 ∧
    (4096 : Nat) + 16 = alignForward 4112 4 ∧
    (Arena.mk 4096 64 4112).tryShrink ⟨4096, 16⟩ 4 8 =
      (true, { Arena.mk 4096 64 4112 with endp := 4096 + 8 }) :=
  ⟨by decide, by decide,
    ((arena_tryShrink_spec (Arena.mk 4096 64 4112) ⟨4096, 16⟩ 4 8).1
      (by decide)).2.1 (by decide)⟩

/-- One call to the arena's mutating interface, with its arguments. -/
inductive ArenaOp where
  | push (size alignment : Nat)
  | pop (block : MemoryBlock) (alignment : Nat)
  | clear
  | tryGrow (block : MemoryBlock) (alignment additional : Nat)
  | tryShrink (block : MemoryBlock) (alignment newSize : Nat)
deriving DecidableEq, Repr

/-- The arena state after one call (return values discarded). -/
def ArenaOp.apply (ar : Arena) : ArenaOp → Arena
  | .push s a => (ar.push s a).2
  | .pop b a => (ar.pop b a).2
  | .clear => ar.clear
  | .tryGrow b a add => (ar.tryGrow b a add).2
  | .tryShrink b a ns => (ar.tryShrink b a ns).2

/-- The arena state after a sequence of calls. -/
def Arena.runOps (ar : Arena) : List ArenaOp → Arena
  | [] => ar
  | op :: rest => Arena.runOps (op.apply ar) rest

/-- A block argument that lies inside the reserved region
`[base, base + cap]`, as every block actually issued by the arena does. -/
def blockInRegion (base cap : Nat) (b : MemoryBlock) : Prop :=
  base ≤ b.ptr ∧ b.ptr + b.size ≤ base + cap

instance (base cap : Nat) (b : MemoryBlock) :
    Decidable (blockInRegion base cap b) := by
  unfold blockInRegion
  infer_instance

/-- Side conditions of one call: pushes use a positive (power-of-two)
alignment, and every block handed to `pop`/`try_shrink` lies inside the
reserved region. -/
def ArenaOp.ok (base cap : Nat) : ArenaOp → Prop
  | .push _ a => 0 < a
  | .pop b _ => blockInRegion base cap b
  | .clear => True
  | .tryGrow _ a _ => 0 < a
  | .tryShrink b _ _ => blockInRegion base cap b

instance (base cap : Nat) (op : ArenaOp) : Decidable (op.ok base cap) := by
  cases op <;> simp only [ArenaOp.ok] <;> infer_instance

/-- C10 counterexample: with a truly arbitrary block argument the invariant
`base <= cursor` fails.  On the fresh arena `{base 4096, cap 64, end 4096}`,
`pop({ptr 0, size 4096}, 1)` succeeds — the forged block's end equals the
aligned cursor — and rewinds the cursor to address 0, below `base`. -/
theorem arena_invariant_forged_block_cex :
    (ArenaOp.apply (Arena.mk 4096 64 4096) (ArenaOp.pop ⟨0, 4096⟩ 1)).base = 4096 ∧
    (ArenaOp.apply (Arena.mk 4096 64 4096) (ArenaOp.pop ⟨0, 4096⟩ 1)).endp = 0 ∧
    ¬((ArenaOp.apply (Arena.mk 4096 64 4096) (ArenaOp.pop ⟨0, 4096⟩ 1)).base ≤
        (ArenaOp.apply (Arena.mk 4096 64 4096) (ArenaOp.pop ⟨0, 4096⟩ 1)).endp) := by
  decide

theorem push_snd_invariant (ar : Arena) (s a : Nat) (ha : 0 < a)
    (h : ar.base ≤ ar.endp ∧ ar.endp ≤ ar.base + ar.cap) :
    (ar.push s a).2.base = ar.base ∧ (ar.push s a).2.cap = ar.cap ∧
    ar.base ≤ (ar.push s a).2.endp ∧ (ar.push s a).2.endp ≤ ar.base + ar.cap := by
  unfold Arena.push
  simp only
  split
  · exact ⟨rfl, rfl, h.1, h.2⟩
  · rename_i hc
    refine ⟨rfl, rfl, ?_, by simp only; omega⟩
    have h1 : ar.endp ≤ alignForward ar.endp a := le_alignForward _ _ ha
    have h2 : alignForward ar.endp a + s ≤
        alignForward (alignForward ar.endp a + s) a := le_alignForward _ _ ha
    simp only
    omega

theorem pop_snd_invariant (ar : Arena) (b : MemoryBlock) (a : Nat)
    (hb : blockInRegion ar.base ar.cap b)
    (h : ar.base ≤ ar.endp ∧ ar.endp ≤ ar.base + ar.cap) :
    (ar.pop b a).2.base = ar.base ∧ (ar.pop b a).2.cap = ar.cap ∧
    ar.base ≤ (ar.pop b a).2.endp ∧ (ar.pop b a).2.endp ≤ ar.base + ar.cap := by
  unfold Arena.pop
  simp only
  split
  · obtain ⟨h1, h2⟩ := hb
    exact ⟨rfl, rfl, h1, by simp only; omega⟩
  · exact ⟨rfl, rfl, h.1, h.2⟩

/-- The invariant is preserved by one call whose side conditions hold. -/
theorem ArenaOp.apply_invariant (ar : Arena) (op : ArenaOp)
    (h : ar.base ≤ ar.endp ∧ ar.endp ≤ ar.base + ar.cap)
    (hok : op.ok ar.base ar.cap) :
    (op.apply ar).base = ar.base ∧ (op.apply ar).cap = ar.cap ∧
    (op.apply ar).base ≤ (op.apply ar).endp ∧
    (op.apply ar).endp ≤ (op.apply ar).base + (op.apply ar).cap := by
  cases op with
  | push s a =>
    simp only [ArenaOp.apply]
    obtain ⟨e1, e2, e3, e4⟩ := push_snd_invariant ar s a hok h
    exact ⟨e1, e2, by omega, by omega⟩
  | pop b a =>
    simp only [ArenaOp.apply]
    obtain ⟨e1, e2, e3, e4⟩ := pop_snd_invariant ar b a hok h
    exact ⟨e1, e2, by omega, by omega⟩
  | clear =>
    refine ⟨rfl, rfl, Nat.le_refl _, Nat.le_add_right _ _⟩
  | tryGrow b a add =>
    simp only [ArenaOp.apply, Arena.tryGrow]
    split
    · exact ⟨rfl, rfl, h.1, h.2⟩
    · obtain ⟨e1, e2, e3, e4⟩ := push_snd_invariant ar add a hok h
      refine ⟨e1, e2, ?_, ?_⟩
      · show (ar.push add a).2.base ≤ (ar.push add a).2.endp
        omega
      · show (ar.push add a).2.endp ≤ (ar.push add a).2.base + (ar.push add a).2.cap
        omega
  | tryShrink b a ns =>
    simp only [ArenaOp.apply, Arena.tryShrink]
    split
    · exact ⟨rfl, rfl, h.1, h.2⟩
    · have hb : blockInRegion ar.base ar.cap ⟨b.ptr + ns, b.size - ns⟩ := by
        obtain ⟨h1, h2⟩ := hok
        exact ⟨show ar.base ≤ b.ptr + ns by omega,
          show b.ptr + ns + (b.size - ns) ≤ ar.base + ar.cap by omega⟩
      obtain ⟨e1, e2, e3, e4⟩ := pop_snd_invariant ar ⟨b.ptr + ns, b.size - ns⟩ a hb h
      exact ⟨e1, e2, by omega, by omega⟩

/-- C10 (amended): for every arena satisfying `base <= cursor <= base +
capacity` and every sequence of `push`, `pop`, `clear`, `try_grow`,
`try_shrink` calls whose block arguments lie inside the reserved region
(and whose push alignments are positive), the invariant
`base <= cursor <= base + capacity` holds after every call, i.e. after every
prefix of the sequence.  The restriction on block arguments is forced by the
counterexample `arena_invariant_forged_block_cex`: a forged block can rewind
the cursor below `base`. -/
theorem arena_ops_invariant (ar : Arena) (ops : List ArenaOp)
    (h0 : ar.base ≤ ar.endp ∧ ar.endp ≤ ar.base + ar.cap)
    (hok : ∀ op ∈ ops, op.ok ar.base ar.cap) :
    ∀ k, (ar.runOps (ops.take k)).base ≤ (ar.runOps (ops.take k)).endp ∧
      (ar.runOps (ops.take k)).endp ≤
        (ar.runOps (ops.take k)).base + (ar.runOps (ops.take k)).cap := by
  induction ops generalizing ar with
  | nil =>
    intro k
    rw [List.take_nil]
    exact h0
  | cons op rest ih =>
    intro k
    cases k with
    | zero => exact h0
    | succ k' =>
      have hop : op.ok ar.base ar.cap := hok op (by simp)
      obtain ⟨e1, e2, e3, e4⟩ := ArenaOp.apply_invariant ar op h0 hop
      have hok' : ∀ o ∈ rest, o.ok (op.apply ar).base (op.apply ar).cap := by
        intro o ho
        rw [e1, e2]
        exact hok o (by simp [ho])
      exact ih (op.apply ar) ⟨e3, by omega⟩ hok' k'

/-- Witness for `arena_ops_invariant`: the arena `{base 4096, cap 64,
end 4096}` with the call sequence push(16,4); pop({4096,16},4); clear(). -/
theorem arena_ops_invariant_witness :
    ((4096 : Nat) ≤ 4096 ∧ (4096 : Nat) ≤ 4096 + 64) ∧
    (∀ op ∈ [ArenaOp.push 16 4, ArenaOp.pop ⟨4096, 16⟩ 4, ArenaOp.clear],
      op.ok 4096 64) ∧
    (∀ k, ((Arena.mk 4096 64 4096).runOps
        (([ArenaOp.push 16 4, ArenaOp.pop ⟨4096, 16⟩ 4, ArenaOp.clear]).take k)).base ≤
        ((Arena.mk 4096 64 4096).runOps
          (([ArenaOp.push 16 4, ArenaOp.pop ⟨4096, 16⟩ 4, ArenaOp.clear]).take k)).endp ∧
      ((Arena.mk 4096 64 4096).runOps
        (([ArenaOp.push 16 4, ArenaOp.pop ⟨4096, 16⟩ 4, ArenaOp.clear]).take k)).endp ≤
        ((Arena.mk 4096 64 4096).runOps
          (([ArenaOp.push 16 4, ArenaOp.pop ⟨4096, 16⟩ 4, ArenaOp.clear]).take k)).base +
        ((Arena.mk 4096 64 4096).runOps
          (([ArenaOp.push 16 4, ArenaOp.pop ⟨4096, 16⟩ 4, ArenaOp.clear]).take k)).cap) :=
  ⟨⟨by decide, by decide⟩, by decide,
    arena_ops_invariant (Arena.mk 4096 64 4096)
      [ArenaOp.push 16 4, ArenaOp.pop ⟨4096, 16⟩ 4, ArenaOp.clear]
      ⟨by decide, by decide⟩ (by decide)⟩

/-! ## The growable array (`include/bpl/array.hpp`)

`Array<T, A = GlobalAllocator>` is embedded with its element storage made
explicit: `buf` has one entry per slot of the allocated block
(`capacity = m_block.size / sizeof(T)` slots); a slot holds `some v` when a
live element with value `v` is constructed there and `none` when the slot is
raw (uninitialized or destroyed) memory.  `sz`/`al` are the template
instantiation's `sizeof(T)`/`alignof(T)`; the element-value type is the type
parameter `α`, with `default : α` standing for a value-initialized `T` (for
`T = int`, `0`).  The backing allocator is `GlobalAllocator`
(`include/bpl/allocator.hpp`), whose `allocate(size, alignment)` rounds the
alignment up to `sizeof(void*) = 8` and returns a block of
`align_forward(size, alignment)` bytes. -/

/-- `GlobalAllocator::allocate(size, alignment)`: the size in bytes of the
returned block (`aligned_size = align_forward(size, max(sizeof(void*),
alignment))`).  Allocation failure aborts the process, so the model always
succeeds. -/
def globalAllocateSize (size alignment : Nat) : Nat :=
  alignForward size (max 8 alignment)

/-- `bpl::Array<T>`: `m_block.size` in bytes, the per-slot contents of the
block, and `m_count`. -/
structure ArrayM (α : Type) where
  sz : Nat
  al : Nat
  blockSize : Nat
  buf : List (Option α)
  count : Nat
deriving DecidableEq, Repr

namespace ArrayM

variable {α : Type}

/-- `Array::capacity() = m_block.size / sizeof(T)`. -/
def capacity (arr : ArrayM α) : Nat := arr.blockSize / arr.sz

/-- A default-constructed `Array<T>`: null block, `m_count = 0`. -/
def emptyArr (sz al : Nat) : ArrayM α := ⟨sz, al, 0, [], 0⟩

/-- Writing `v` into every slot of `[start, stop)`.  With `v = some x` this is
`bpl::fill(range, x)` (assignment over live slots) and also
`bpl::construct(range, x)` / `std::construct_at` (placement-construction over
raw slots); with `v = none` it is `bpl::destroy` /`destroy_backward`. -/
def setRange (buf : List (Option α)) (start stop : Nat) (v : Option α) :
    List (Option α) :=
  buf.mapIdx fun i w => if start ≤ i ∧ i < stop then v else w

/-- `Array::reserve(count)`: no-op when `count <= capacity()`; otherwise
allocate `count * sizeof(T)` bytes through the allocator and `relocate` every
live element into the front of the new block (the old block's contents are
discarded with it). -/
def reserve (arr : ArrayM α) (n : Nat) : ArrayM α :=
  if n ≤ arr.capacity then arr
  else
    let newSize := globalAllocateSize (n * arr.sz) arr.al
    let newCap := newSize / arr.sz
    let moved := min arr.count newCap
    { arr with
      blockSize := newSize
      buf := (List.range newCap).map fun i =>
        if i < moved then arr.buf.getD i none else none }

/-- `Array::append(args...)` with the constructed element value `v`:
`reserve(size() + 1)`, then `std::construct_at(end(), ...)`, then
`m_count += 1`. -/
def append (arr : ArrayM α) (v : α) : ArrayM α :=
  let arr2 := arr.reserve (arr.count + 1)
  { arr2 with buf := arr2.buf.set arr2.count (some v), count := arr2.count + 1 }

/-- `Array::append_n(n, args...)` with the constructed element value `v`:
`reserve(size() + n)`, then construct the raw slots
`[size(), size() + n)`, then `m_count += n`. -/
def appendN (arr : ArrayM α) (n : Nat) (v : α) : ArrayM α :=
  let arr2 := arr.reserve (arr.count + n)
  { arr2 with
    buf := setRange arr2.buf arr2.count (arr2.count + n) (some v)
    count := arr2.count + n }

/-- `Array::assign(count, x)`.  If `count <= capacity()`: when
`count <= size()` fill the first `count` live slots with `x`; otherwise fill
all `size()` live slots with `x` and *default*-construct (`construct` with no
arguments, i.e. value-initialization) the raw slots `[size(), count)`.  If
`count > capacity()`: rebuild into a fresh block of exactly
`allocate(count * sizeof(T))` bytes and construct `count` copies of `x`.
Finally `m_count = count`. -/
def assign [Inhabited α] (arr : ArrayM α) (n : Nat) (x : α) : ArrayM α :=
  if n ≤ arr.capacity then
    if n ≤ arr.count then
      { arr with buf := setRange arr.buf 0 n (some x), count := n }
    else
      { arr with
        buf := setRange (setRange arr.buf 0 arr.count (some x)) arr.count n
          (some (default : α))
        count := n }
  else
    let newSize := globalAllocateSize (n * arr.sz) arr.al
    let newCap := newSize / arr.sz
    { arr with
      blockSize := newSize
      buf := setRange (List.replicate newCap (none : Option α)) 0 n (some x)
      count := n }

/-- One iteration of `bpl::relocate_backward`'s loop: move-construct
`dst[dst_index - i]` from `src[src_index - i]`, then destroy the source slot
(global slot indices; `src_index = srcLen - 1`, `dst_index = dstLen - 1`
relative to the two subspans). -/
def relocBackStep (srcStart srcLen dstStart dstLen : Nat)
    (buf : List (Option α)) (i : Nat) : List (Option α) :=
  (buf.set (dstStart + dstLen - 1 - i) (buf.getD (srcStart + srcLen - 1 - i) none)).set
    (srcStart + srcLen - 1 - i) none

/-- `bpl::relocate_backward(src, dst)` on subranges of one buffer:
rightmost element first, each step move-constructs into the tail of `dst`
and destroys the source slot.  `none` models the debug assertion
`size(src) <= size(dst)` failing (with assertions compiled out this is
out-of-bounds undefined behaviour). -/
def relocateBackward (buf : List (Option α)) (srcStart srcLen dstStart dstLen : Nat) :
    Option (List (Option α)) :=
  if srcLen ≤ dstLen then
    some ((List.range srcLen).foldl (relocBackStep srcStart srcLen dstStart dstLen) buf)
  else
    none

/-- `Array::insert(i, args...)` with the constructed element value `v`:
`reserve(size() + 1)`, then
`relocate_backward(Span(*this)[{.start = i}], as_raw_span()[{.start = size() + 1}])`
— the source is the live tail `[i, size())`, the destination the raw slots
`[size() + 1, capacity())` — then construct at `i` and `m_count += 1`. -/
def insert (arr : ArrayM α) (idx : Nat) (v : α) : Option (ArrayM α) :=
  let arr2 := arr.reserve (arr.count + 1)
  match relocateBackward arr2.buf idx (arr2.count - idx) (arr2.count + 1)
      (arr2.capacity - (arr2.count + 1)) with
  | none => none
  | some b => some { arr2 with buf := b.set idx (some v), count := arr2.count + 1 }

/-- `Array::allocate_amortized(count)` (array.hpp, lines 231–240): the byte
count it would request from the allocator — `SIZE_MAX` when
`count * sizeof(T) >= SIZE_MAX / 2`, otherwise
`max(capacity() * sizeof(T) * 2, count * sizeof(T))`.  This private helper is
never called anywhere in the repository: `append`/`append_n` grow through
`reserve`, which requests exactly `count * sizeof(T)` bytes. -/
def allocateAmortizedBytes (arr : ArrayM α) (n : Nat) : Nat :=
  let bytes := n * arr.sz
  if (2 ^ 64 - 1) / 2 ≤ bytes then 2 ^ 64 - 1
  else max (arr.capacity * arr.sz * 2) bytes

end ArrayM

/-- `Array<int>` built by four appends: `size() == 4`, `capacity() == 4`
(16-byte block). -/
def c1Arr4 : ArrayM Nat :=
  (((ArrayM.emptyArr 4 4).append 1).append 2).append 3 |>.append 4

/-- `c1Arr4` after one more `append`, which must grow. -/
def c1Arr5 : ArrayM Nat := c1Arr4.append 5

/-- C1: refuted on the code.  Appending to a full `Array<int>` of size 4
(16-byte block) goes through `reserve(5)`, which requests exactly
`5 * sizeof(int) = 20` bytes — the allocator rounds this up to a 24-byte
block — whereas the claimed amortized doubling policy
`max(capacity * 2, requested bytes) = max(32, 20)` requires 32 bytes.  The
helper `allocate_amortized`, which implements exactly the claimed policy,
is dead code.  (The weaker "grows to at least `size + count`" part does
hold: the new capacity is 6 ≥ 5.) -/
theorem array_append_growth_not_amortized_doubling :
    c1Arr4.count = 4 ∧ c1Arr4.capacity = 4 ∧ c1Arr4.blockSize = 16 ∧
    c1Arr5.count = 5 ∧ c1Arr5.blockSize = 24 ∧ c1Arr5.capacity = 6 ∧
    c1Arr4.allocateAmortizedBytes (c1Arr4.count + 1) = 32 ∧
    max (c1Arr4.blockSize * 2) ((c1Arr4.count + 1) * c1Arr4.sz) = 32 ∧
    c1Arr5.blockSize ≠ 32 := by
  decide

/-- `Array<int>` holding `[1, 2]` with capacity 6 (after `reserve(5)` the
allocator hands back a 24-byte block). -/
def c2Arr : ArrayM Nat := (((ArrayM.emptyArr 4 4).append 1).append 2).reserve 5

/-- `c2Arr` after `insert(0, 7)`. -/
def c2Inserted : Option (ArrayM Nat) := c2Arr.insert 0 7

/-- The state the embedded `insert` actually produces. -/
def c2Result : ArrayM Nat := ⟨4, 4, 24, [some 7, none, none, none, some 1, some 2], 3⟩

/-- C2: refuted on the code.  After `append(1); append(2); reserve(5);
insert(0, 7)` — every call meeting its preconditions — the array reports
`size() == 3`, but index 1 (and 2) holds destroyed raw memory, not a live
element: `insert` relocated the old elements to slots 4 and 5 instead of
slots 1 and 2.  (`size <= capacity` itself still holds here; it is the
live-element half of the invariant that breaks.) -/
theorem array_insert_breaks_live_element_invariant :
    c2Inserted = some c2Result ∧
    1 < c2Result.count ∧
    c2Result.buf.getD 1 none = none := by
  decide

/-- C3: refuted on the code.  `insert(0, 7)` on `[1, 2]` (capacity 6) must,
per the claim, shift the tail one slot right so that slots 1 and 2 hold the
former elements 1 and 2.  Instead the code passes
`as_raw_span()[{.start = size() + 1}]` (rather than `[{.end = size() + 1}]`,
as its sibling `insert_range` does) to `relocate_backward`, so the tail is
relocated into the *last* slots of the capacity span: slots 4 and 5, leaving
destroyed slots at indices 1 and 2. -/
theorem array_insert_tail_lands_at_capacity_end :
    c2Inserted = some c2Result ∧
    c2Result.buf.getD 1 none ≠ some 1 ∧
    c2Result.buf.getD 2 none ≠ some 2 ∧
    c2Result.buf.getD 4 none = some 1 ∧
    c2Result.buf.getD 5 none = some 2 := by
  decide

/-- `Array<int>` holding `[5]` with capacity 4 (after `reserve(3)` the
allocator hands back a 16-byte block). -/
def c4Arr : ArrayM Nat := ((ArrayM.emptyArr 4 4).append 5).reserve 3

/-- `c4Arr` after `assign(3, 7)`. -/
def c4Assigned : ArrayM Nat := c4Arr.assign 3 7

/-- C4: refuted on the code.  `assign(3, 7)` on the size-1, capacity-4 array
`[5]` takes the in-place growing branch (`size() < count <= capacity()`),
which fills the existing element with 7 but then calls `construct` on the
raw slots `[size(), count)` *without* passing `x`, value-initializing them
instead: the result is `[7, 0, 0]`, not three copies of 7. -/
theorem array_assign_grow_constructs_default_not_value :
    c4Arr.count = 1 ∧ c4Arr.capacity = 4 ∧
    c4Assigned.count = 3 ∧
    c4Assigned.buf.getD 0 none = some 7 ∧
    c4Assigned.buf.getD 1 none = some 0 ∧
    c4Assigned.buf.getD 2 none = some 0 ∧
    c4Assigned.buf.getD 1 none ≠ some 7 := by
  decide

end Bpl
